import Mathlib

/-!
Verification of the record-storage layer of the Health Evaluation API
(`api/main.py`).  Python strings are modelled as `List Char` (ASCII-level:
`str.lower`/`str.strip` are modelled by `Char.toLower` and ASCII whitespace,
which agree with Python on every character relevant to the sanitizer's
`[a-z0-9\-_]` alphabet).  The data directory is modelled as an association
list from filename stem to file content.
-/

/-- Python `str.isspace`-style test used by `str.strip()` (ASCII subset). -/
def pyIsSpace (c : Char) : Bool :=
  c.toNat = 32 || (9 ≤ c.toNat && c.toNat ≤ 13)

/-- Membership in the regex character class `[a-z0-9\-_]` of `sanitize_filename`. -/
def isAllowed (c : Char) : Bool :=
  (97 ≤ c.toNat && c.toNat ≤ 122) || (48 ≤ c.toNat && c.toNat ≤ 57) ||
    c.toNat = 45 || c.toNat = 95

/-- Python `name.lower()`. -/
def pyLower (s : List Char) : List Char := s.map Char.toLower

/-- Python `name.strip()`: drop leading and trailing whitespace. -/
def pyStrip (s : List Char) : List Char :=
  ((s.dropWhile pyIsSpace).reverse.dropWhile pyIsSpace).reverse

/-- Python `re.sub(r'[^a-z0-9\-_]', '-', name)`: each disallowed character
becomes a single dash. -/
def subBad (s : List Char) : List Char :=
  s.map (fun c => if isAllowed c then c else '-')

/-- Python `re.sub(r'-+', '-', name)`: collapse each maximal run of dashes to
one dash.  The flag records whether the previous emitted character closed a
dash run still being skipped. -/
def collapseAux : Bool → List Char → List Char
  | _, [] => []
  | b, c :: rest =>
    if c = '-' then
      if b then collapseAux true rest else '-' :: collapseAux true rest
    else c :: collapseAux false rest

/-- Embedding of `sanitize_filename` from `api/main.py`: lowercase, strip,
replace disallowed characters by `-`, collapse dash runs, truncate to 50. -/
def sanitize_filename (s : List Char) : List Char :=
  (collapseAux false (subBad (pyStrip (pyLower s)))).take 50

/-- Python truthiness-based `a or dflt` for an optional string: `None` and the
empty string fall through to the default. -/
def pyOr (a : Option (List Char)) (dflt : List Char) : List Char :=
  match a with
  | some s => if s.isEmpty then dflt else s
  | none => dflt

/-- Name component of `get_eval_filename`: `sanitize_filename(name or "unnamed")`. -/
def name_part (name : Option (List Char)) : List Char :=
  sanitize_filename (pyOr name ("unnamed".toList))

/-- Sex component of `get_eval_filename`: `(sex or "unknown")[0].lower()`. -/
def sex_part (sex : Option (List Char)) : List Char :=
  match pyOr sex ("unknown".toList) with
  | [] => []
  | c :: _ => [c.toLower]

/-- Decimal rendering of the age, as the f-string `{age}` renders a Python int. -/
def intStr (n : Int) : List Char := (toString n).toList

/-- Filename stem built by `get_eval_filename` (everything before `.json`). -/
def get_eval_stem (name : Option (List Char)) (age : Int) (sex : Option (List Char)) :
    List Char :=
  name_part name ++ ['_'] ++ intStr age ++ ['_'] ++ sex_part sex

/-- Embedding of `get_eval_filename` from `api/main.py`:
`f"{name_part}_{age}_{sex_part}.json"`. -/
def get_eval_filename (name : Option (List Char)) (age : Int) (sex : Option (List Char)) :
    List Char :=
  get_eval_stem name age sex ++ ".json".toList

/-- JSON values, as produced by `json.load` / consumed by `json.dump`. -/
inductive Json where
  | null : Json
  | boolean : Bool → Json
  | num : Int → Json
  | str : List Char → Json
  | arr : List Json → Json
  | obj : List (List Char × Json) → Json

/-- Content of one `*.json` file in the data directory: either bytes that fail
`open`/`json.load`, or a parsed JSON document. -/
inductive FileContent where
  | corrupt : FileContent
  | json : Json → FileContent

/-- The data directory: filename stems paired with file contents. -/
abbrev Store := List (List Char × FileContent)

/-- Pydantic `Evaluation` model from `api/main.py`. -/
structure Evaluation where
  id : List Char
  created_at : List Char
  updated_at : List Char
  person_name : Option (List Char)
  person_age : Option Int
  person_sex : Option (List Char)
  measurements : List (List Char × Json)
  notes : Option (List Char)

/-- Python truthiness of `evaluation.person_age` (`Optional[int]`): `None`
and `0` are falsy. -/
def pyTruthyInt (o : Option Int) : Bool :=
  match o with
  | none => false
  | some n => n ≠ 0

/-- Serialization written by `json.dump(evaluation.dict() | updated_at := now)`:
field order follows the pydantic model declaration, `updated_at` replaced by
the server timestamp, `None` rendered as JSON null. -/
def evalToJson (e : Evaluation) (now : List Char) : Json :=
  Json.obj
    [("id".toList, Json.str e.id),
     ("created_at".toList, Json.str e.created_at),
     ("updated_at".toList, Json.str now),
     ("person_name".toList,
       match e.person_name with | none => Json.null | some s => Json.str s),
     ("person_age".toList,
       match e.person_age with | none => Json.null | some n => Json.num n),
     ("person_sex".toList,
       match e.person_sex with | none => Json.null | some s => Json.str s),
     ("measurements".toList, Json.obj e.measurements),
     ("notes".toList,
       match e.notes with | none => Json.null | some s => Json.str s)]

/-- Writing a file: the directory maps each stem to at most one content, so the
old entry (if any) is dropped and the new binding recorded. -/
def storeWrite (store : Store) (stem : List Char) (c : FileContent) : Store :=
  List.filter (fun p => decide ¬(p.1 = stem)) store ++ [(stem, c)]

/-- Embedding of `save_evaluation`: reject falsy `person_age` with HTTP 400
before any filesystem access, otherwise overwrite the derived file and return
the derived filename (the f-string value, `.json` included).  The result pairs
the resulting directory state with the HTTP outcome. -/
def save_evaluation (now : List Char) (store : Store) (e : Evaluation) :
    Store × Except (Nat × List Char) (List Char) :=
  if pyTruthyInt e.person_age then
    let stem := get_eval_stem e.person_name (e.person_age.getD 0) e.person_sex
    (storeWrite store stem (FileContent.json (evalToJson e now)),
      Except.ok (stem ++ ".json".toList))
  else
    (store, Except.error (400, "Age is required".toList))

/-- Embedding of `get_evaluation`: sanitize the supplied filename, append
`.json`, 404 when no such file exists, otherwise return the parsed document
(a corrupt file makes `json.load` raise, surfacing as a 500). -/
def get_evaluation (store : Store) (filename : List Char) :
    Except (Nat × List Char) Json :=
  match List.lookup (sanitize_filename filename) store with
  | none => Except.error (404, "Evaluation not found".toList)
  | some FileContent.corrupt => Except.error (500, "Internal Server Error".toList)
  | some (FileContent.json j) => Except.ok j

/-- Pydantic `EvaluationSummary` model from `api/main.py`. -/
structure EvaluationSummary where
  filename : List Char
  name : List Char
  age : Option Int
  sex : Option (List Char)
  measurement_count : Nat
  updated_at : List Char
deriving DecidableEq

/-- Python `data.get(key, dflt)` on the parsed JSON object. -/
def jget (fields : List (List Char × Json)) (key : List Char) (dflt : Json) : Json :=
  (List.lookup key fields).getD dflt

/-- Python `len(v)`: defined for strings, arrays and objects; anything else
raises `TypeError` (modelled as `none`). -/
def pyLen : Json → Option Nat
  | Json.str s => some s.length
  | Json.arr xs => some xs.length
  | Json.obj fs => some fs.length
  | _ => none

/-- Pydantic validation of a required `str` field (modelled from the library:
a JSON string validates, `null` and non-strings raise `ValidationError`). -/
def asStr : Json → Option (List Char)
  | Json.str s => some s
  | _ => none

/-- Pydantic validation of an `Optional[int]` field. -/
def asOptInt : Json → Option (Option Int)
  | Json.null => some none
  | Json.num n => some (some n)
  | _ => none

/-- Pydantic validation of an `Optional[str]` field. -/
def asOptStr : Json → Option (Option (List Char))
  | Json.null => some none
  | Json.str s => some (some s)
  | _ => none

/-- Construction of `EvaluationSummary(...)` inside `list_evaluations`'s loop
body; `none` is the `ValidationError`/`TypeError` path that the surrounding
`except Exception: continue` absorbs. -/
def mkSummary (stem : List Char) (fields : List (List Char × Json)) :
    Option EvaluationSummary :=
  (asStr (jget fields "person_name".toList (Json.str "Unnamed".toList))).bind fun nm =>
  (asOptInt (jget fields "person_age".toList Json.null)).bind fun ag =>
  (asOptStr (jget fields "person_sex".toList Json.null)).bind fun sx =>
  (pyLen (jget fields "measurements".toList (Json.obj []))).bind fun mc =>
  (asStr (jget fields "updated_at".toList (Json.str []))).map fun ua =>
  ⟨stem, nm, ag, sx, mc, ua⟩

/-- Per-file step of the listing loop: unreadable or unparsable files, JSON
non-objects (`data.get` raises `AttributeError`) and summaries that fail
validation are all skipped by the `except Exception: continue` handler. -/
def summarize (f : List Char × FileContent) : Option EvaluationSummary :=
  match f.2 with
  | FileContent.corrupt => none
  | FileContent.json (Json.obj fields) => mkSummary f.1 fields
  | FileContent.json _ => none

/-- Python string `<`: lexicographic comparison by code point. -/
def strLt : List Char → List Char → Bool
  | [], [] => false
  | [], _ :: _ => true
  | _ :: _, [] => false
  | a :: as, b :: bs =>
    if a.toNat < b.toNat then true
    else if b.toNat < a.toNat then false
    else strLt as bs

/-- Stable descending insertion by `updated_at`: the inserted element precedes
exactly the later elements whose key is strictly below its own, matching
Python's stable `list.sort(key=..., reverse=True)`. -/
def insertDesc (s : EvaluationSummary) : List EvaluationSummary → List EvaluationSummary
  | [] => [s]
  | t :: ts =>
    if strLt s.updated_at t.updated_at then t :: insertDesc s ts else s :: t :: ts

/-- Stable sort, descending by `updated_at`, modelling
`evaluations.sort(key=lambda x: x.updated_at, reverse=True)`. -/
def sortDesc (l : List EvaluationSummary) : List EvaluationSummary :=
  l.foldr insertDesc []

/-- Embedding of `list_evaluations`: summarize every readable file, skip
failures silently, sort descending by `updated_at`. -/
def list_evaluations (store : Store) : List EvaluationSummary :=
  sortDesc (store.filterMap summarize)

/-- Absence of two adjacent dashes, the invariant established by the dash-run
collapse of the sanitizer. -/
def noDD : List Char → Bool
  | [] => true
  | [_] => true
  | a :: b :: rest => if a = '-' ∧ b = '-' then false else noDD (b :: rest)

/-- Ordering invariant of `list_evaluations`' result: the earlier summary's
`updated_at` is not lexicographically below the later one's. -/
def keyGe (a b : EvaluationSummary) : Prop :=
  strLt a.updated_at b.updated_at = false

/-- Test whether a file is the unreadable/unparsable kind. -/
def isCorrupt : FileContent → Bool
  | FileContent.corrupt => true
  | FileContent.json _ => false

/-- Concrete record used as a test input: person ("john", 30, "m"), id "a". -/
def e1c : Evaluation :=
  ⟨"a".toList, "2024-01-01T00:00:00Z".toList, "2024-01-01T00:00:00Z".toList,
   some "john".toList, some 30, some "m".toList, [], none⟩

/-- Concrete record with the same (name, age, sex) triple as `e1c` but a
different id "b" and different notes. -/
def e2c : Evaluation :=
  ⟨"b".toList, "2024-02-02T00:00:00Z".toList, "2024-02-02T00:00:00Z".toList,
   some "john".toList, some 30, some "m".toList, [], some "second".toList⟩

/-- Concrete record whose `person_age` is absent. -/
def eNoAge : Evaluation :=
  ⟨"c".toList, "2024-01-01T00:00:00Z".toList, "2024-01-01T00:00:00Z".toList,
   some "ann".toList, none, some "f".toList, [], none⟩

/-- Stored file for Alice, `updated_at` 2024-01-01. -/
def f1 : List Char × FileContent :=
  ("alice_30_f".toList, FileContent.json (Json.obj
    [("person_name".toList, Json.str "Alice".toList),
     ("person_age".toList, Json.num 30),
     ("person_sex".toList, Json.str "f".toList),
     ("measurements".toList, Json.obj []),
     ("updated_at".toList, Json.str "2024-01-01T00:00:00Z".toList)]))

/-- Stored file for Bob, `updated_at` 2024-06-01. -/
def f2 : List Char × FileContent :=
  ("bob_40_m".toList, FileContent.json (Json.obj
    [("person_name".toList, Json.str "Bob".toList),
     ("person_age".toList, Json.num 40),
     ("person_sex".toList, Json.str "m".toList),
     ("measurements".toList, Json.obj []),
     ("updated_at".toList, Json.str "2024-06-01T00:00:00Z".toList)]))

/-- Stored file for Carol, with no `updated_at` key at all. -/
def f3 : List Char × FileContent :=
  ("carol_50_f".toList, FileContent.json (Json.obj
    [("person_name".toList, Json.str "Carol".toList),
     ("person_age".toList, Json.num 50),
     ("person_sex".toList, Json.str "f".toList),
     ("measurements".toList, Json.obj [])]))

/-- Stored file whose JSON object maps `person_name` to null. -/
def nullNameFile : List Char × FileContent :=
  ("nn".toList, FileContent.json (Json.obj [("person_name".toList, Json.null)]))

/-- Summary of `f1`. -/
def sAlice : EvaluationSummary :=
  ⟨"alice_30_f".toList, "Alice".toList, some 30, some "f".toList, 0,
   "2024-01-01T00:00:00Z".toList⟩

/-- Summary of `f2`. -/
def sBob : EvaluationSummary :=
  ⟨"bob_40_m".toList, "Bob".toList, some 40, some "m".toList, 0,
   "2024-06-01T00:00:00Z".toList⟩

/-- Summary of `f3`; the missing `updated_at` is summarized as the empty string. -/
def sCarol : EvaluationSummary :=
  ⟨"carol_50_f".toList, "Carol".toList, some 50, some "f".toList, 0, []⟩

/-- Stored file for Dave, also with no `updated_at` key. -/
def f4 : List Char × FileContent :=
  ("dave_20_m".toList, FileContent.json (Json.obj
    [("person_name".toList, Json.str "Dave".toList),
     ("person_age".toList, Json.num 20),
     ("person_sex".toList, Json.str "m".toList),
     ("measurements".toList, Json.obj [])]))

/-- Summary of `f4`. -/
def sDave : EvaluationSummary :=
  ⟨"dave_20_m".toList, "Dave".toList, some 20, some "m".toList, 0, []⟩

/-- C2, counterexample: with `sex` absent the code computes
`("unknown")[0].lower()`, so the sex component of the derived filename is the
single character "u", not the full token "unknown" that the claim requires. -/
theorem sex_part_absent_counterexample :
    sex_part none = ['u'] ∧ sex_part none ≠ "unknown".toList ∧
      get_eval_filename (some "john".toList) 30 none = "john_30_u.json".toList := by
  refine ⟨by decide, by decide, by decide⟩

/-- C2, amended: when `sex` is present and non-empty the sex component is the
first character of `sex` lowercased; when `sex` is absent (or empty) it is the
single character "u", the lowercased first character of the fallback word
"unknown". -/
theorem sex_part_spec :
    (∀ (sex : Option (List Char)) (c : Char) (cs : List Char),
        sex = some (c :: cs) → sex_part sex = [c.toLower]) ∧
      sex_part none = ['u'] ∧ sex_part (some []) = ['u'] := by
  refine ⟨?_, by decide, by decide⟩
  rintro sex c cs rfl
  simp [sex_part, pyOr]

/-- C2 witness: the amended statement applied at sex = "M" (and at absent sex). -/
theorem sex_part_spec_witness :
    sex_part (some ['M']) = ['m'] ∧ sex_part none = ['u'] :=
  ⟨by rw [sex_part_spec.1 (some ['M']) 'M' [] rfl]; decide, sex_part_spec.2.1⟩

/-- C4: a record whose `person_age` is absent or zero is rejected with the
HTTP 400 "Age is required" validation error and the data directory is
returned unchanged: no file is created, modified or deleted. -/
theorem save_missing_age_no_write (store : Store) (e : Evaluation) (now : List Char)
    (h : e.person_age = none ∨ e.person_age = some 0) :
    save_evaluation now store e =
      (store, Except.error (400, "Age is required".toList)) := by
  have ht : pyTruthyInt e.person_age = false := by
    rcases h with h | h <;> simp [pyTruthyInt, h]
  simp [save_evaluation, ht]

/-- C4 witness: the theorem applied to a record with absent age on the empty
directory. -/
theorem save_missing_age_no_write_witness :
    save_evaluation [] [] eNoAge =
      ([], Except.error (400, "Age is required".toList)) :=
  save_missing_age_no_write [] eNoAge [] (Or.inl rfl)

/-- C7, counterexample: the name " " (one space) has an empty lowercased and
trimmed form, yet the name component of the derived filename is the empty
string, not "unnamed": the code substitutes the fallback before sanitizing
(`sanitize_filename(name or "unnamed")`), so only falsy names are replaced. -/
theorem name_part_whitespace_counterexample :
    pyStrip (pyLower [' ']) = [] ∧ name_part (some [' ']) = [] ∧
      name_part (some [' ']) ≠ "unnamed".toList := by
  refine ⟨by decide, by decide, by decide⟩

/-- C7, amended: the literal token "unnamed" is substituted exactly when the
name is absent or the empty string (Python falsiness, checked before
sanitization); a whitespace-only name instead sanitizes to the empty
component. -/
theorem name_part_unnamed (name : Option (List Char))
    (h : name = none ∨ name = some []) :
    name_part name = "unnamed".toList := by
  rcases h with rfl | rfl <;> decide

/-- C7 witness: the amended statement applied at an absent name. -/
theorem name_part_unnamed_witness : name_part none = "unnamed".toList :=
  name_part_unnamed none (Or.inl rfl)

/-- Characters surviving the collapse step occur in its input. -/
theorem mem_collapseAux (l : List Char) :
    ∀ (b : Bool) (c : Char), c ∈ collapseAux b l → c ∈ l := by
  induction l with
  | nil => intro b c h; simp [collapseAux] at h
  | cons a rest ih =>
    intro b c h
    by_cases ha : a = '-'
    · subst ha
      cases b with
      | true =>
        simp only [collapseAux, if_pos rfl, if_pos trivial] at h
        exact List.mem_cons_of_mem _ (ih true c (by simpa using h))
      | false =>
        simp only [collapseAux] at h
        rcases List.mem_cons.mp (by simpa using h) with h' | h'
        · simp [h']
        · exact List.mem_cons_of_mem _ (ih true c h')
    · simp only [collapseAux, if_neg ha] at h
      rcases List.mem_cons.mp h with h' | h'
      · simp [h']
      · exact List.mem_cons_of_mem _ (ih false c h')

/-- Every character of the sanitizer's output lies in `[a-z0-9\-_]`. -/
theorem sanitize_chars_allowed (s : List Char) :
    ∀ c ∈ sanitize_filename s, isAllowed c = true := by
  intro c hc
  unfold sanitize_filename at hc
  have h1 : c ∈ collapseAux false (subBad (pyStrip (pyLower s))) :=
    List.mem_of_mem_take hc
  have h2 : c ∈ subBad (pyStrip (pyLower s)) := mem_collapseAux _ _ _ h1
  rcases List.mem_map.mp h2 with ⟨a, _, ha⟩
  by_cases hall : isAllowed a = true
  · rw [← ha, if_pos hall]; exact hall
  · rw [← ha, if_neg hall]; decide

/-- C9: the sanitizer's output never exceeds 50 characters and consists only
of characters from `[a-z0-9\-_]`. -/
theorem sanitize_length_charset :
    ∀ s : List Char, (sanitize_filename s).length ≤ 50 ∧
      ∀ c ∈ sanitize_filename s, isAllowed c = true := by
  intro s
  refine ⟨?_, sanitize_chars_allowed s⟩
  unfold sanitize_filename
  exact List.length_take_le 50 _

/-- Mapping a function that fixes every element of a list is the identity. -/
theorem map_eq_self_of {α : Type} (f : α → α) (l : List α)
    (h : ∀ c ∈ l, f c = c) : l.map f = l := by
  induction l with
  | nil => rfl
  | cons a rest ih =>
    simp only [List.map_cons, h a (List.mem_cons_self a rest)]
    rw [ih fun c hc => h c (List.mem_cons_of_mem a hc)]

/-- Dropping a prefix of elements satisfying `p` does nothing when no element
satisfies `p`. -/
theorem dropWhile_eq_self_of (p : Char → Bool) (l : List Char)
    (h : ∀ c ∈ l, p c = false) : l.dropWhile p = l := by
  cases l with
  | nil => rfl
  | cons a rest => simp [List.dropWhile, h a (List.mem_cons_self a rest)]

/-- Characters of the sanitizer's alphabet are unchanged by `Char.toLower`. -/
theorem toLower_eq_self_of_allowed (c : Char) (h : isAllowed c = true) :
    c.toLower = c := by
  simp only [isAllowed, Bool.or_eq_true, Bool.and_eq_true, decide_eq_true_eq] at h
  have hn : ¬(c.toNat ≥ 65 ∧ c.toNat ≤ 90) := by omega
  simp [Char.toLower, hn]

/-- Characters of the sanitizer's alphabet are not whitespace. -/
theorem not_space_of_allowed (c : Char) (h : isAllowed c = true) :
    pyIsSpace c = false := by
  simp only [isAllowed, Bool.or_eq_true, Bool.and_eq_true, decide_eq_true_eq] at h
  simp only [pyIsSpace, Bool.or_eq_false_iff, Bool.and_eq_false_iff,
    decide_eq_false_iff_not]
  omega

/-- While the collapse runs in dash-skipping state, its output never starts
with a dash. -/
theorem collapseAux_true_no_dash_head (l : List Char) :
    ∀ t, collapseAux true l ≠ '-' :: t := by
  induction l with
  | nil => intro t h; simp [collapseAux] at h
  | cons a rest ih =>
    intro t h
    by_cases ha : a = '-'
    · subst ha
      simp only [collapseAux, if_pos rfl, if_pos trivial] at h
      exact ih t h
    · simp only [collapseAux, if_neg ha] at h
      exact ha (List.cons.injEq .. ▸ h).1

/-- Prepending a character preserves `noDD` when the tail does not begin with
a dash clashing with it. -/
theorem noDD_cons_of (a : Char) (l : List Char) (h1 : noDD l = true)
    (h2 : ∀ t, l = '-' :: t → a ≠ '-') : noDD (a :: l) = true := by
  cases l with
  | nil => rfl
  | cons b rest =>
    by_cases hb : a = '-' ∧ b = '-'
    · exact absurd hb.1 (h2 rest (by rw [hb.2]))
    · simpa [noDD, hb] using h1

/-- Removing the head preserves `noDD`. -/
theorem noDD_tail (a : Char) (l : List Char) (h : noDD (a :: l) = true) :
    noDD l = true := by
  cases l with
  | nil => rfl
  | cons b rest =>
    by_cases hb : a = '-' ∧ b = '-'
    · simp [noDD, hb] at h
    · simpa [noDD, hb] using h

/-- The collapse step leaves no two adjacent dashes. -/
theorem noDD_collapseAux (l : List Char) : ∀ b, noDD (collapseAux b l) = true := by
  induction l with
  | nil => intro b; rfl
  | cons a rest ih =>
    intro b
    by_cases ha : a = '-'
    · subst ha
      cases b with
      | true => simpa only [collapseAux, if_pos rfl, if_pos trivial] using ih true
      | false =>
        simp only [collapseAux, if_pos rfl]
        exact noDD_cons_of _ _ (ih true)
          fun t ht _ => collapseAux_true_no_dash_head rest t ht
    · have hc : ∀ b' : Bool, collapseAux b' (a :: rest) = a :: collapseAux false rest := by
        intro b'; simp [collapseAux, ha]
      rw [hc b]
      exact noDD_cons_of _ _ (ih false) fun _ _ => ha

/-- A list without adjacent dashes is a fixed point of the collapse step. -/
theorem collapseAux_eq_self (l : List Char) :
    ∀ b, noDD l = true → (b = true → ∀ t, l ≠ '-' :: t) → collapseAux b l = l := by
  induction l with
  | nil => intro b _ _; rfl
  | cons a rest ih =>
    intro b h hb
    by_cases ha : a = '-'
    · subst ha
      have hbf : b = false := by
        cases b with
        | false => rfl
        | true => exact absurd rfl (hb rfl rest)
      subst hbf
      have hc : collapseAux false ('-' :: rest) = '-' :: collapseAux true rest := by
        simp [collapseAux]
      rw [hc]
      refine congrArg (List.cons '-') (ih true (noDD_tail _ _ h) ?_)
      intro _ t ht
      subst ht
      simp [noDD] at h
    · have hc : collapseAux b (a :: rest) = a :: collapseAux false rest := by
        simp [collapseAux, ha]
      rw [hc, ih false (noDD_tail _ _ h) (fun hf => absurd hf (by simp))]

/-- Truncation preserves the absence of adjacent dashes. -/
theorem noDD_take (l : List Char) : ∀ n, noDD l = true → noDD (l.take n) = true := by
  induction l with
  | nil => intro n _; rw [List.take_nil]; rfl
  | cons a rest ih =>
    intro n h
    cases n with
    | zero => rfl
    | succ m =>
      rw [List.take_succ_cons]
      cases rest with
      | nil => rw [List.take_nil]; rfl
      | cons b r =>
        cases m with
        | zero => rfl
        | succ k =>
          rw [List.take_succ_cons]
          by_cases hb : a = '-' ∧ b = '-'
          · simp [noDD, hb] at h
          · have h2 : noDD (b :: List.take k r) = true := by
              have h3 := ih (k + 1) (noDD_tail a _ h)
              rwa [List.take_succ_cons] at h3
            simpa [noDD, hb] using h2

/-- C8: the sanitizer is idempotent; its output is lowercase, free of
whitespace and disallowed characters, has no adjacent dashes and is at most
50 characters long, so every stage of a second pass is the identity. -/
theorem sanitize_idempotent : ∀ s : List Char,
    sanitize_filename (sanitize_filename s) = sanitize_filename s := by
  intro s
  have hall : ∀ c ∈ sanitize_filename s, isAllowed c = true := sanitize_chars_allowed s
  have hlow : pyLower (sanitize_filename s) = sanitize_filename s :=
    map_eq_self_of _ _ fun c hc => toLower_eq_self_of_allowed c (hall c hc)
  have hstrip : pyStrip (sanitize_filename s) = sanitize_filename s := by
    unfold pyStrip
    rw [dropWhile_eq_self_of _ _ fun c hc => not_space_of_allowed c (hall c hc),
      dropWhile_eq_self_of _ _
        fun c hc => not_space_of_allowed c (hall c (List.mem_reverse.mp hc)),
      List.reverse_reverse]
  have hsub : subBad (sanitize_filename s) = sanitize_filename s :=
    map_eq_self_of _ _ fun c hc => by rw [if_pos (hall c hc)]
  have hnodd : noDD (sanitize_filename s) = true := by
    unfold sanitize_filename
    exact noDD_take _ 50 (noDD_collapseAux _ false)
  have hcol : collapseAux false (sanitize_filename s) = sanitize_filename s :=
    collapseAux_eq_self _ false hnodd fun hf => absurd hf (by simp)
  have hlen : (sanitize_filename s).take 50 = sanitize_filename s := by
    rw [sanitize_filename, List.take_take]
    simp
  calc sanitize_filename (sanitize_filename s)
      = (collapseAux false (subBad (pyStrip (pyLower (sanitize_filename s))))).take 50 :=
        rfl
    _ = sanitize_filename s := by rw [hlow, hstrip, hsub, hcol, hlen]

/-- Looking up the stem just written finds exactly the content just written. -/
theorem lookup_storeWrite (store : Store) (stem : List Char) (c : FileContent) :
    List.lookup stem (storeWrite store stem c) = some c := by
  unfold storeWrite
  induction store with
  | nil => simp [List.lookup]
  | cons p rest ih =>
    by_cases hp : p.1 = stem
    · simpa [List.filter, hp] using ih
    · have hne : (stem == p.1) = false := by
        simp only [beq_eq_false_iff_ne, ne_eq]
        exact fun hx => hp hx.symm
      cases p with
      | mk k v =>
        simp only [List.filter, decide_not, decide_eq_false hp, Bool.not_false]
        simpa [List.lookup, hne, decide_not] using ih

/-- After a write, the written stem occurs on exactly one file. -/
theorem count_storeWrite (store : Store) (stem : List Char) (c : FileContent) :
    ((storeWrite store stem c).filter fun p => decide (p.1 = stem)).length = 1 := by
  unfold storeWrite
  rw [List.filter_append]
  have h1 : (List.filter (fun p => decide (p.1 = stem))
      (List.filter (fun p => decide ¬(p.1 = stem)) store)) = [] := by
    induction store with
    | nil => rfl
    | cons p rest ih =>
      by_cases hp : p.1 = stem
      · simp [List.filter, hp, ih]
      · simp [List.filter, hp, ih]
  rw [h1]
  simp [List.filter]

/-- C1: two successive saves whose records carry the same
(person_name, person_age, person_sex) triple but different ids derive the
same filename; afterwards the directory holds exactly one file under that
stem and its content is the full serialization of the second record,
including the second record's id, with nothing of the first surviving. -/
theorem save_overwrite_same_triple
    (store store1 store2 : Store) (e1 e2 : Evaluation)
    (now1 now2 fn1 fn2 : List Char)
    (hname : e1.person_name = e2.person_name)
    (hage : e1.person_age = e2.person_age)
    (hsex : e1.person_sex = e2.person_sex)
    (hid : e1.id ≠ e2.id)
    (h1 : save_evaluation now1 store e1 = (store1, Except.ok fn1))
    (h2 : save_evaluation now2 store1 e2 = (store2, Except.ok fn2)) :
    ((store2.filter fun p =>
        decide (p.1 = get_eval_stem e2.person_name (e2.person_age.getD 0)
          e2.person_sex)).length = 1) ∧
      List.lookup (get_eval_stem e2.person_name (e2.person_age.getD 0) e2.person_sex)
          store2 =
        some (FileContent.json (evalToJson e2 now2)) := by
  by_cases ht : pyTruthyInt e2.person_age = true
  · unfold save_evaluation at h2
    rw [if_pos ht] at h2
    injection h2 with hA hB
    rw [← hA]
    exact ⟨count_storeWrite _ _ _, lookup_storeWrite _ _ _⟩
  · unfold save_evaluation at h2
    rw [if_neg ht] at h2
    injection h2 with hA hB
    exact absurd hB (by simp)

/-- C1 witness: saving `e1c` then `e2c` (same triple, ids "a" and "b") into an
empty directory, with the theorem's hypotheses discharged by computation. -/
theorem save_overwrite_same_triple_witness :
    (((save_evaluation "T2".toList (save_evaluation "T1".toList [] e1c).1 e2c).1.filter
        fun p => decide (p.1 = get_eval_stem e2c.person_name (e2c.person_age.getD 0)
          e2c.person_sex)).length = 1) ∧
      List.lookup (get_eval_stem e2c.person_name (e2c.person_age.getD 0) e2c.person_sex)
          (save_evaluation "T2".toList (save_evaluation "T1".toList [] e1c).1 e2c).1 =
        some (FileContent.json (evalToJson e2c "T2".toList)) :=
  save_overwrite_same_triple [] (save_evaluation "T1".toList [] e1c).1
    (save_evaluation "T2".toList (save_evaluation "T1".toList [] e1c).1 e2c).1
    e1c e2c "T1".toList "T2".toList "john_30_m.json".toList "john_30_m.json".toList
    rfl rfl rfl (by decide) rfl rfl

/-- C3, counterexample: saving the record ("john", 30, "m") returns the
filename "john_30_m.json" — with the storage extension, contrary to the
claim — and calling get with exactly that returned string immediately
afterwards fails with the 404 NotFoundError, because get sanitizes its
argument and "." becomes "-", so the looked-up stem "john_30_m-json" does not
match the written stem "john_30_m". -/
theorem save_roundtrip_counterexample :
    (save_evaluation "T1".toList [] e1c).2 = Except.ok ("john_30_m.json".toList) ∧
      get_evaluation (save_evaluation "T1".toList [] e1c).1 ("john_30_m.json".toList) =
        Except.error (404, "Evaluation not found".toList) ∧
      sanitize_filename ("john_30_m.json".toList) = "john_30_m-json".toList := by
  exact ⟨rfl, rfl, by decide⟩

/-- C3, amended: a successful save returns the derived filename WITH the
".json" storage extension appended to the stem; re-fetching with the returned
string itself is not supported (see the counterexample), but calling get with
the stem — the returned value minus the extension — succeeds and yields the
document just written, whenever that stem is a fixed point of the sanitizer
(as it is for ordinary alphanumeric names and sexes). -/
theorem save_returns_stem_ext (now : List Char) (store store' : Store)
    (e : Evaluation) (fn : List Char)
    (h : save_evaluation now store e = (store', Except.ok fn)) :
    fn = get_eval_stem e.person_name (e.person_age.getD 0) e.person_sex ++
        ".json".toList ∧
      (sanitize_filename (get_eval_stem e.person_name (e.person_age.getD 0)
            e.person_sex) =
          get_eval_stem e.person_name (e.person_age.getD 0) e.person_sex →
        get_evaluation store'
            (get_eval_stem e.person_name (e.person_age.getD 0) e.person_sex) =
          Except.ok (evalToJson e now)) := by
  by_cases ht : pyTruthyInt e.person_age = true
  · unfold save_evaluation at h
    rw [if_pos ht] at h
    injection h with hA hB
    injection hB with hfn
    refine ⟨hfn.symm, fun hs => ?_⟩
    unfold get_evaluation
    rw [hs, ← hA, lookup_storeWrite]
  · unfold save_evaluation at h
    rw [if_neg ht] at h
    injection h with hA hB
    exact absurd hB (by simp)

/-- C3 witness: the amended statement applied to saving `e1c` into the empty
directory; the stem "john_30_m" is sanitize-invariant, and get on it returns
the written document. -/
theorem save_returns_stem_ext_witness :
    get_evaluation (save_evaluation "T1".toList [] e1c).1
        (get_eval_stem e1c.person_name (e1c.person_age.getD 0) e1c.person_sex) =
      Except.ok (evalToJson e1c "T1".toList) :=
  (save_returns_stem_ext "T1".toList [] (save_evaluation "T1".toList [] e1c).1 e1c
      ("john_30_m.json".toList) rfl).2 (by decide)

/-- Lexicographic string comparison is asymmetric. -/
theorem strLt_asymm : ∀ a b : List Char, strLt a b = true → strLt b a = false := by
  intro a
  induction a with
  | nil =>
    intro b h
    cases b with
    | nil => simp [strLt] at h
    | cons c cs => rfl
  | cons c cs ih =>
    intro b h
    cases b with
    | nil => simp [strLt] at h
    | cons d ds =>
      by_cases h1 : c.toNat < d.toNat
      · have h2 : ¬d.toNat < c.toNat := by omega
        simp [strLt, h1, h2]
      · by_cases h2 : d.toNat < c.toNat
        · rw [strLt, if_neg h1, if_pos h2] at h
          exact absurd h (by simp)
        · rw [strLt, if_neg h1, if_neg h2] at h
          simp only [strLt, if_neg h2, if_neg h1]
          exact ih ds h

/-- Lexicographic non-strict comparison (negation of strict) is transitive. -/
theorem strLt_le_trans : ∀ a b c : List Char,
    strLt a b = false → strLt b c = false → strLt a c = false := by
  intro a
  induction a with
  | nil =>
    intro b c h1 h2
    cases b with
    | nil => exact h2
    | cons y ys => simp [strLt] at h1
  | cons x xs ih =>
    intro b c h1 h2
    cases c with
    | nil => rfl
    | cons z zs =>
      cases b with
      | nil => simp [strLt] at h2
      | cons y ys =>
        by_cases hxy : x.toNat < y.toNat
        · rw [strLt, if_pos hxy] at h1
          exact absurd h1 (by simp)
        · rw [strLt, if_neg hxy] at h1
          by_cases hyz : y.toNat < z.toNat
          · rw [strLt, if_pos hyz] at h2
            exact absurd h2 (by simp)
          · rw [strLt, if_neg hyz] at h2
            by_cases hxz : x.toNat < z.toNat
            · omega
            · rw [strLt, if_neg hxz]
              by_cases hzx : z.toNat < x.toNat
              · rw [if_pos hzx]
              · rw [if_neg hzx]
                have hyx : ¬y.toNat < x.toNat := by omega
                have hzy : ¬z.toNat < y.toNat := by omega
                rw [if_neg hyx] at h1
                rw [if_neg hzy] at h2
                exact ih ys zs h1 h2

/-- Membership in an insertion. -/
theorem mem_insertDesc (s x : EvaluationSummary) :
    ∀ l : List EvaluationSummary, x ∈ insertDesc s l ↔ x = s ∨ x ∈ l := by
  intro l
  induction l with
  | nil => simp [insertDesc]
  | cons t ts ih =>
    by_cases h : strLt s.updated_at t.updated_at = true
    · rw [insertDesc, if_pos h]
      simp only [List.mem_cons, ih]
      tauto
    · rw [insertDesc, if_neg h]
      simp

/-- Insertion preserves the descending-pairwise invariant. -/
theorem pairwise_insertDesc (s : EvaluationSummary) (l : List EvaluationSummary)
    (h : l.Pairwise keyGe) : (insertDesc s l).Pairwise keyGe := by
  induction l with
  | nil => simp [insertDesc, keyGe]
  | cons t ts ih =>
    rcases List.pairwise_cons.mp h with ⟨ht, hts⟩
    by_cases hlt : strLt s.updated_at t.updated_at = true
    · rw [insertDesc, if_pos hlt]
      refine List.pairwise_cons.mpr ⟨?_, ih hts⟩
      intro x hx
      rcases (mem_insertDesc s x ts).mp hx with rfl | hx'
      · exact strLt_asymm _ _ hlt
      · exact ht x hx'
    · rw [insertDesc, if_neg hlt]
      refine List.pairwise_cons.mpr ⟨?_, h⟩
      intro x hx
      have hst : keyGe s t := by
        simpa using hlt
      rcases List.mem_cons.mp hx with rfl | hx'
      · exact hst
      · exact strLt_le_trans _ _ _ hst (ht x hx')

/-- The result of the descending sort is pairwise descending. -/
theorem sortDesc_pairwise (l : List EvaluationSummary) :
    (sortDesc l).Pairwise keyGe := by
  induction l with
  | nil => simp [sortDesc]
  | cons a rest ih => exact pairwise_insertDesc a (sortDesc rest) ih

/-- Sorting neither adds nor removes summaries. -/
theorem mem_sortDesc (x : EvaluationSummary) :
    ∀ l : List EvaluationSummary, x ∈ sortDesc l ↔ x ∈ l := by
  intro l
  induction l with
  | nil => simp [sortDesc]
  | cons a rest ih =>
    show x ∈ insertDesc a (sortDesc rest) ↔ _
    rw [mem_insertDesc, ih]
    simp [eq_comm]

/-- C5: the listing is ordered descending by `updated_at` under lexicographic
string comparison; summaries whose `updated_at` is missing (hence the empty
string) occupy the final positions; and on the concrete three-record store
with timestamps 2024-01-01, 2024-06-01 and one missing, the output order is
[2024-06-01, 2024-01-01, missing]. -/
theorem list_sorted_desc :
    (∀ store : Store, (list_evaluations store).Pairwise keyGe) ∧
      (∀ (store : Store) (l1 l2 : List EvaluationSummary) (s : EvaluationSummary),
        list_evaluations store = l1 ++ s :: l2 → s.updated_at = [] →
          ∀ t ∈ l2, t.updated_at = []) ∧
      list_evaluations [f1, f2, f3] = [sBob, sAlice, sCarol] := by
  refine ⟨fun store => sortDesc_pairwise _, ?_, by decide⟩
  intro store l1 l2 s hsplit hs t ht
  have hp : (l1 ++ s :: l2).Pairwise keyGe := by
    rw [← hsplit]; exact sortDesc_pairwise _
  have h2 := (List.pairwise_append.mp hp).2.1
  have h3 := (List.pairwise_cons.mp h2).1 t ht
  unfold keyGe at h3
  rw [hs] at h3
  cases htu : t.updated_at with
  | nil => rfl
  | cons c cs => rw [htu] at h3; simp [strLt] at h3

/-- C5 witness: on the store [Alice(2024-01-01), Carol(missing), Dave(missing)]
the listing is [Alice, Carol, Dave]; the theorem's suffix clause applied at
the split after Carol concludes that Dave's `updated_at` is also empty. -/
theorem list_sorted_desc_witness : sDave.updated_at = [] :=
  list_sorted_desc.2.1 [f1, f3, f4] [sAlice] [sDave] sCarol (by decide) rfl sDave
    (by simp)

/-- Files failing the non-corruption test contribute nothing to the summary
pass, so filtering them away first does not change the result. -/
theorem filterMap_skip_filter (g : List Char × FileContent → Option EvaluationSummary)
    (p : List Char × FileContent → Bool) :
    ∀ l : Store, (∀ x, p x = false → g x = none) →
      (l.filter p).filterMap g = l.filterMap g := by
  intro l h
  induction l with
  | nil => rfl
  | cons a rest ih =>
    by_cases hp : p a = true
    · rw [List.filter_cons_of_pos hp, List.filterMap_cons, List.filterMap_cons]
      cases g a <;> simp [ih]
    · have hpf : p a = false := by simpa using hp
      rw [List.filter_cons_of_neg (by simp [hpf]), List.filterMap_cons, h a hpf]
      exact ih

/-- C6: the listing never aborts on bad files — removing every unreadable or
unparsable file from the directory first yields exactly the same result, and
every file that does summarize successfully still appears in the output. -/
theorem list_skips_corrupt :
    (∀ store : Store,
        list_evaluations (store.filter fun f => !isCorrupt f.2) =
          list_evaluations store) ∧
      ∀ store : Store, ∀ f ∈ store, ∀ s, summarize f = some s →
        s ∈ list_evaluations store := by
  constructor
  · intro store
    unfold list_evaluations
    rw [filterMap_skip_filter summarize _ store ?_]
    rintro ⟨stem, fc⟩ hx
    cases fc with
    | corrupt => rfl
    | json j => simp [isCorrupt] at hx
  · intro store f hf s hs
    show s ∈ sortDesc (store.filterMap summarize)
    exact (mem_sortDesc s _).mpr (List.mem_filterMap.mpr ⟨f, hf, hs⟩)

/-- C6 witness: a directory holding one corrupt file and Alice's file still
lists Alice's summary. -/
theorem list_skips_corrupt_witness :
    sAlice ∈ list_evaluations [("bad".toList, FileContent.corrupt), f1] :=
  list_skips_corrupt.2 [("bad".toList, FileContent.corrupt), f1] f1 (by simp) sAlice
    (by decide)

/-- C10: a parsed JSON object whose `person_name` key holds null fails the
summary construction (a string is required, and `dict.get` returns the stored
null rather than the "Unnamed" default), and the failure is absorbed by the
same silent-skip handler as parse errors, so the record is omitted from the
listing entirely; on a store holding such a file next to Alice's, the listing
is exactly Alice's summary. -/
theorem list_null_name_skipped :
    (∀ (stem : List Char) (fields : List (List Char × Json)),
        List.lookup ("person_name".toList) fields = some Json.null →
        summarize (stem, FileContent.json (Json.obj fields)) = none) ∧
      list_evaluations [nullNameFile, f1] = [sAlice] := by
  constructor
  · intro stem fields h
    have h2 : jget fields ("person_name".toList) (Json.str "Unnamed".toList) =
        Json.null := by
      unfold jget; rw [h]; rfl
    show mkSummary stem fields = none
    unfold mkSummary
    rw [h2]
    rfl
  · rfl

/-- C10 witness: the theorem applied to the concrete null-name file. -/
theorem list_null_name_skipped_witness :
    summarize ("nn".toList, FileContent.json (Json.obj
      [("person_name".toList, Json.null)])) = none :=
  list_null_name_skipped.1 ("nn".toList) [("person_name".toList, Json.null)] rfl
